import Mathlib

/-! Verification of the typing-speed-classic passage pipeline and typing engine

Shallow embedding of the repository's core modules:

* `difficultyAnalyzer.js` — Flesch-Kincaid readability scoring (`analyze`).
* `textProcessor.js` — sanitization (`cleanPassageText`), character-set
  validation, suitability filtering, fingerprint deduplication and the
  book-processing pipeline (`processBook`).
* `passageGenerator.js` — non-repeating random passage selection
  (`getRandom`, Fisher-Yates `shuffleArray`).
* the typing session engine (`TypingEngine`) — keystroke-driven state
  machine with live and final metric computation.

JavaScript strings are modelled as `List Char`; JavaScript numbers are
modelled as `ℚ` (all arithmetic appearing in the source is exact decimal
arithmetic well within double precision for the inputs considered);
timestamps (`Date.now()`) are natural-number milliseconds supplied as an
explicit `now` argument. The ambient timer table (`setInterval` /
`clearInterval`) is modelled by an explicit `World` holding the set of live
interval ids. Randomness (`Math.random` / `crypto.getRandomValues`) is
modelled by explicit oracle arguments.
-/

set_option maxRecDepth 10000

namespace TypingSpeedClassic

/-! Section: Character classes used by the JavaScript regexes -/

/-- The JavaScript `\s` class: ASCII whitespace plus the Unicode whitespace
characters recognised by ECMAScript. -/
def isJsWS (c : Char) : Bool :=
  c = ' ' || c = '\t' || c = '\n' || c = '\r' ||
  c = Char.ofNat 0x0b || c = Char.ofNat 0x0c ||
  c = Char.ofNat 0xa0 || c = Char.ofNat 0x1680 ||
  (0x2000 ≤ c.toNat && c.toNat ≤ 0x200a) ||
  c = Char.ofNat 0x2028 || c = Char.ofNat 0x2029 ||
  c = Char.ofNat 0x202f || c = Char.ofNat 0x205f ||
  c = Char.ofNat 0x3000 || c = Char.ofNat 0xfeff

/-- ASCII uppercase letter `A`-`Z`. -/
def isUpperAZ (c : Char) : Bool := 65 ≤ c.toNat && c.toNat ≤ 90

/-- ASCII lowercase letter `a`-`z`. -/
def isLowerAZ (c : Char) : Bool := 97 ≤ c.toNat && c.toNat ≤ 122

/-- ASCII letter, the `[a-zA-Z]` class. -/
def isAsciiLetter (c : Char) : Bool := isUpperAZ c || isLowerAZ c

/-- ASCII digit, the `[0-9]` class. -/
def isDigitC (c : Char) : Bool := 48 ≤ c.toNat && c.toNat ≤ 57

/-- The JavaScript `\w` class `[A-Za-z0-9_]`. -/
def isWordChar (c : Char) : Bool := isAsciiLetter c || isDigitC c || c = '_'

/-- Membership in the strict allow-list class `[a-zA-Z0-9\s.,]` used for
beginner/intermediate passages. -/
def isAllowClass (c : Char) : Bool :=
  isAsciiLetter c || isDigitC c || isJsWS c || c = '.' || c = ','

/-- The explicit per-character filter of `cleanPassageText` (second pass):
keeps only code points 65-90, 97-122, 48-57, 32, 46, 44.  Note this is
strictly narrower than `isAllowClass` (plain space only, no other
whitespace). -/
def isAllowedCode (c : Char) : Bool :=
  (65 ≤ c.toNat && c.toNat ≤ 90) ||
  (97 ≤ c.toNat && c.toNat ≤ 122) ||
  (48 ≤ c.toNat && c.toNat ≤ 57) ||
  c.toNat = 32 || c.toNat = 46 || c.toNat = 44

/-! Section: Generic string operations (JS built-ins and regex passes) -/

/-- JavaScript `String.prototype.trim`: drop `\s` characters from both
ends. -/
def jsTrim (l : List Char) : List Char :=
  ((l.dropWhile isJsWS).reverse.dropWhile isJsWS).reverse

/-- Length bound for `dropWhile`, used in termination arguments. -/
theorem length_dropWhile_le_self (p : α → Bool) :
    ∀ l : List α, (l.dropWhile p).length ≤ l.length
  | [] => le_refl _
  | c :: rest => by
    by_cases h : p c
    · rw [List.dropWhile_cons_of_pos h]
      exact le_trans (length_dropWhile_le_self p rest) (Nat.le_succ _)
    · rw [List.dropWhile_cons_of_neg (by simpa using h)]

/-- Embeds `String.prototype.split` on a regex matching maximal runs of `sep`
characters (such as `/[.!?]+/` or `/\s+/`): pieces between maximal
separator runs, with empty pieces at the edges when the string starts or
ends with a separator run. -/
def splitRunsAux (sep : Char → Bool) : List Char → List Char → List (List Char)
  | [], cur => [cur.reverse]
  | c :: rest, cur =>
    if sep c then
      cur.reverse :: splitRunsAux sep (rest.dropWhile sep) []
    else
      splitRunsAux sep rest (c :: cur)
termination_by l _ => l.length
decreasing_by
  · simp only [List.length_cons]
    exact Nat.lt_succ_of_le (length_dropWhile_le_self sep rest)
  · simp

/-- Split on maximal runs of `sep` characters. -/
def splitRuns (sep : Char → Bool) (l : List Char) : List (List Char) :=
  splitRunsAux sep l []

/-- Generic engine for JavaScript global regex replacement
`s.replace(re, repl)`: repeatedly find the leftmost match and substitute,
resuming after the substituted text.  `try1 prev l` reports a match of the
specific regex anchored at the head of `l` as `some (k, repl)` where `k ≥ 1`
characters are consumed; `prev` is the character of the original string
immediately before `l` (needed for `\b` assertions). -/
def scanReplace (try1 : Option Char → List Char → Option (Nat × List Char)) :
    Nat → Option Char → List Char → List Char
  | 0, _, l => l
  | _ + 1, _, [] => []
  | fuel + 1, prev, c :: rest =>
    match try1 prev (c :: rest) with
    | some (k, repl) =>
      if k = 0 then c :: scanReplace try1 fuel (some c) rest
      else repl ++ scanReplace try1 fuel
        (((c :: rest).take k).getLast?) ((c :: rest).drop k)
    | none => c :: scanReplace try1 fuel (some c) rest

/-- Run a global regex replacement over a whole string (fuel = length
suffices since every match consumes at least one character). -/
def runReplace (try1 : Option Char → List Char → Option (Nat × List Char))
    (l : List Char) : List Char :=
  scanReplace try1 l.length none l

/-- Matcher for `/\s+/` replaced by a single space. -/
def matchWSRun (_ : Option Char) (l : List Char) : Option (Nat × List Char) :=
  match l with
  | [] => none
  | c :: _ =>
    if isJsWS c then some ((l.takeWhile isJsWS).length, [' ']) else none

/-- Embeds `s.replace(/\s+/g, ' ')`. -/
def collapseWS (l : List Char) : List Char := runReplace matchWSRun l

/-! Section: JavaScript number rounding (exact over `ℚ`) -/

/-- Embeds `Math.max` on exact rationals (kernel-computable). -/
def qmax (a b : ℚ) : ℚ := if a ≤ b then b else a

/-- Embeds `Math.min` on exact rationals (kernel-computable). -/
def qmin (a b : ℚ) : ℚ := if a ≤ b then a else b

/-- Embeds `Math.abs` on exact rationals (kernel-computable). -/
def qabs (a : ℚ) : ℚ := if a ≤ 0 then -a else a

/-- JavaScript `Math.round`: round half toward positive infinity. -/
def jsRound (q : ℚ) : Int := Rat.floor (q + 1/2)

/-- Embeds `Math.round(q * 10) / 10` — round to one decimal place. -/
def round1 (q : ℚ) : ℚ := (jsRound (q * 10) : ℚ) / 10

/-! Section: `difficultyAnalyzer.js` — Flesch-Kincaid scoring -/

/-- Result of `analyze`: `{grade, ease}`. -/
structure AnalyzeResult where
  grade : ℚ
  ease : ℚ
  deriving DecidableEq, Repr

/-- Sentence-terminal characters `[.!?]`. -/
def isTermC (c : Char) : Bool := c = '.' || c = '!' || c = '?'

/-- Vowel for the syllable heuristic (`'aeiouy'.includes(char)`). -/
def isVowelC (c : Char) : Bool :=
  c = 'a' || c = 'e' || c = 'i' || c = 'o' || c = 'u' || c = 'y'

/-- Count transitions into a vowel group, the core of `countSyllables`. -/
def vowelGroups : Bool → List Char → Nat
  | _, [] => 0
  | prevWasVowel, c :: rest =>
    (if isVowelC c && !prevWasVowel then 1 else 0) + vowelGroups (isVowelC c) rest

/-- Embeds `countSyllables(word)` from `difficultyAnalyzer.js`: lowercase, strip
non-`[a-z]`, count vowel groups, subtract a trailing silent `e` (when more
than one syllable), add one for a consonant-`le` ending, floor at 1. -/
def countSyllables (word : List Char) : Nat :=
  if word = [] then 0
  else
    let w := (word.map Char.toLower).filter isLowerAZ
    if w = [] then 0
    else
      let s1 := vowelGroups false w
      let s2 :=
        if w.getLast? = some 'e' ∧ 1 < s1 then s1 - 1 else s1
      let s3 :=
        if w.reverse.take 2 = ['e', 'l'] ∧ 2 < w.length ∧
            isVowelC ((w.get? (w.length - 3)).getD ' ') = false then
          s2 + 1
        else s2
      max 1 s3

/-- Embeds `analyze(text)` from `difficultyAnalyzer.js`.  Strips characters outside
`[\w\s.!?]` (replaced by a space), collapses whitespace, counts sentences,
words and syllables, and applies the Flesch formulas over exact rational
arithmetic, rounding each result to one decimal. -/
def analyze (text : List Char) : AnalyzeResult :=
  if text = [] || jsTrim text = [] then ⟨0, 0⟩
  else
    let mapped := text.map fun c =>
      if isWordChar c || isJsWS c || isTermC c then c else ' '
    let cleanText := jsTrim (collapseWS mapped)
    let sentences := (splitRuns isTermC cleanText).filter fun s => jsTrim s ≠ []
    let sentenceCount : Nat := if sentences.length = 0 then 1 else sentences.length
    let words := (splitRuns isJsWS cleanText).filter fun w => w ≠ []
    let wordCount : Nat := if words.length = 0 then 1 else words.length
    let syllableCount : Nat := max ((words.map countSyllables).sum) wordCount
    let avgSentenceLength : ℚ := (wordCount : ℚ) / (sentenceCount : ℚ)
    let avgSyllablesPerWord : ℚ := (syllableCount : ℚ) / (wordCount : ℚ)
    let ease : ℚ := qmax 0 (qmin 100
      (206835/1000 - (1015/1000 * avgSentenceLength) - (846/10 * avgSyllablesPerWord)))
    let grade : ℚ := qmax 0
      ((39/100 * avgSentenceLength) + (118/10 * avgSyllablesPerWord) - 1559/100)
    ⟨round1 grade, round1 ease⟩

/-! Section: `textProcessor.js` — regex matchers for the sanitization passes -/

/-- Word-character test on an optional character (string edges count as
non-word), for the `\b` assertion. -/
def isWordOpt : Option Char → Bool
  | none => false
  | some c => isWordChar c

/-- The `\b` assertion between two adjacent (optional) characters. -/
def isBoundary (a b : Option Char) : Bool := isWordOpt a != isWordOpt b

/-- Case-insensitive word-bounded match of one literal phrase at the head of
`l` (`prev` is the preceding character of the original string).  Phrases are
given lowercased. -/
def matchPhraseAt (prev : Option Char) (l : List Char) (ph : List Char) :
    Option (Nat × List Char) :=
  let k := ph.length
  if (l.take k).map Char.toLower = ph ∧ isBoundary prev l.head? = true ∧
      isBoundary ((l.take k).getLast?) (l.get? k) = true then
    some (k, [])
  else none

/-- Alternation of word-bounded phrases, tried in the order they appear in
the regex (JavaScript alternation takes the first alternative that
matches). -/
def tryPhrases : List (List Char) → Option Char → List Char → Option (Nat × List Char)
  | [], _, _ => none
  | ph :: rest, prev, l =>
    match matchPhraseAt prev l ph with
    | some r => some r
    | none => tryPhrases rest prev l

/-- Matcher for `/\*+[^*]*\*+/` (anything between asterisks), removed. -/
def matchStarPlus (_ : Option Char) (l : List Char) : Option (Nat × List Char) :=
  match l with
  | '*' :: _ =>
    let run1 := (l.takeWhile (· = '*')).length
    let after1 := l.drop run1
    let mid := (after1.takeWhile (· ≠ '*')).length
    let after2 := after1.drop mid
    if after2 ≠ [] then
      some (run1 + mid + (after2.takeWhile (· = '*')).length, [])
    else if 2 ≤ run1 then some (run1, [])
    else none
  | _ => none

/-- Matcher for `/\*\*\*[^*]*\*\*\*/` (expert tier), removed. -/
def matchTriStar (_ : Option Char) (l : List Char) : Option (Nat × List Char) :=
  if l.take 3 = ['*', '*', '*'] then
    let mid := ((l.drop 3).takeWhile (· ≠ '*')).length
    if (l.drop (3 + mid)).take 3 = ['*', '*', '*'] then
      some (3 + mid + 3, [])
    else none
  else none

/-- Matcher for `/\[[^\]]*\]/` and `/\([^)]*\)/`: an opening delimiter, any
characters other than the closing delimiter, the closing delimiter;
removed. -/
def matchDelim (opc clc : Char) (_ : Option Char) (l : List Char) :
    Option (Nat × List Char) :=
  match l with
  | c :: rest =>
    if c = opc then
      let mid := (rest.takeWhile (· ≠ clc)).length
      if rest.drop mid ≠ [] then some (1 + mid + 1, []) else none
    else none
  | [] => none

/-- Matcher for `/(P)\s+/g → '$1 '` where `P` is a punctuation class:
punctuation followed by a whitespace run becomes punctuation plus a single
space. -/
def matchPunctSpace (pset : Char → Bool) (_ : Option Char) (l : List Char) :
    Option (Nat × List Char) :=
  match l with
  | c :: d :: _ =>
    if pset c && isJsWS d then
      some (1 + ((l.drop 1).takeWhile isJsWS).length, [c, ' '])
    else none
  | _ => none

/-- Matcher for `/\s+([.,])/g → '$1'`: whitespace before a period or comma
is removed. -/
def matchWSPunct (_ : Option Char) (l : List Char) : Option (Nat × List Char) :=
  match l with
  | c :: _ =>
    if isJsWS c then
      let run := (l.takeWhile isJsWS).length
      match l.drop run with
      | p :: _ => if p = '.' ∨ p = ',' then some (run + 1, [p]) else none
      | [] => none
    else none
  | [] => none

/-- Matcher for `/P{2,}/g → repl`: a run of at least two characters of the
class `P` is replaced by `repl`. -/
def matchPunctRun (pset : Char → Bool) (repl : List Char) (_ : Option Char)
    (l : List Char) : Option (Nat × List Char) :=
  match l with
  | c :: _ =>
    if pset c then
      let run := (l.takeWhile pset).length
      if 2 ≤ run then some (run, repl) else none
    else none
  | [] => none

/-- Period or comma. -/
def isCommaPeriod (c : Char) : Bool := c = '.' || c = ','

/-- Non-global `s.replace(/^\s*[.,]\s*/, '')`: remove one leading
punctuation mark together with surrounding whitespace, when present. -/
def stripLeadPunct (l : List Char) : List Char :=
  match l.dropWhile isJsWS with
  | c :: rest => if c = '.' ∨ c = ',' then rest.dropWhile isJsWS else l
  | [] => l

/-- Non-global `s.replace(/\s*[.,]\s*$/, '.')`: a trailing period or comma
(with surrounding whitespace) becomes a single period.  When the string does
not end in whitespace-wrapped punctuation there is no match and the string
is returned unchanged. -/
def fixEnding (l : List Char) : List Char :=
  match l.reverse.dropWhile isJsWS with
  | c :: rest =>
    if c = '.' ∨ c = ',' then ((rest.dropWhile isJsWS).reverse) ++ ['.'] else l
  | [] => l

/-! Section: `textProcessor.js` — cleaning, validation, suitability, fingerprints -/

/-- The three difficulty tiers. -/
inductive Difficulty where
  | beginner
  | intermediate
  | expert
  deriving DecidableEq, Repr

/-- The allow-list regex `/^[a-zA-Z0-9\s.,]+$/` (note `+`: the empty string
does not match). -/
def allowPlusTest (l : List Char) : Bool := !l.isEmpty && l.all isAllowClass

/-- Embeds `isCharacterSetValid(text, difficulty)` from `textProcessor.js`. -/
def isCharacterSetValid (d : Difficulty) (text : List Char) : Bool :=
  if d = .beginner ∨ d = .intermediate then allowPlusTest text else true

/-- Boilerplate phrase list of the first beginner/intermediate removal regex
`/\b(gutenberg|project gutenberg|produced by|created by|ebook|etext)\b/gi`. -/
def phrasesB1 : List (List Char) :=
  ["gutenberg".toList, "project gutenberg".toList, "produced by".toList,
   "created by".toList, "ebook".toList, "etext".toList]

/-- Phrase list of the second beginner/intermediate removal regex
`/\b(isbn|edition|volume|copyright|public domain|gutenberg\.org)\b/gi`. -/
def phrasesB2 : List (List Char) :=
  ["isbn".toList, "edition".toList, "volume".toList, "copyright".toList,
   "public domain".toList, "gutenberg.org".toList]

/-- Phrase list of the first expert removal regex
`/\b(Project Gutenberg|gutenberg\.org|Produced by|Created by)\b/gi`
(case-insensitive, so lowercased here). -/
def phrasesE1 : List (List Char) :=
  ["project gutenberg".toList, "gutenberg.org".toList, "produced by".toList,
   "created by".toList]

/-- Phrase list of the second expert removal regex
`/\b(This eBook|ebook|etext|ISBN|Edition|Volume|Copyright)\b/gi`. -/
def phrasesE2 : List (List Char) :=
  ["this ebook".toList, "ebook".toList, "etext".toList, "isbn".toList,
   "edition".toList, "volume".toList, "copyright".toList]

/-- The beginner/intermediate cleaning pipeline of `cleanPassageText` before
the final validity checks: whitespace normalization/trim, boilerplate and
bracketed-content removal, the explicit per-character allow filter, and the
spacing/punctuation normalization passes, ending with a trim. -/
def cleanCoreBI (text : List Char) : List Char :=
  let c0 := jsTrim (collapseWS text)
  let c1 := runReplace (tryPhrases phrasesB1) c0
  let c2 := runReplace (tryPhrases phrasesB2) c1
  let c3 := runReplace matchStarPlus c2
  let c4 := runReplace (matchDelim '[' ']') c3
  let c5 := runReplace (matchDelim '(' ')') c4
  let c6 := c5.filter isAllowedCode
  let c7 := collapseWS c6
  let c8 := runReplace (matchPunctSpace isCommaPeriod) c7
  let c9 := runReplace matchWSPunct c8
  let c10 := runReplace (matchPunctRun isCommaPeriod ['.']) c9
  let c11 := stripLeadPunct c10
  jsTrim (fixEnding c11)

/-- The expert cleaning pipeline of `cleanPassageText`: boilerplate removal,
`***` block removal, smart-quote normalization and punctuation-run
collapsing. -/
def cleanCoreExpert (text : List Char) : List Char :=
  let c0 := jsTrim (collapseWS text)
  let c1 := runReplace (tryPhrases phrasesE1) c0
  let c2 := runReplace (tryPhrases phrasesE2) c1
  let c3 := runReplace matchTriStar c2
  let c4 := c3.map fun c =>
    if c = Char.ofNat 0x201c ∨ c = Char.ofNat 0x201d then '"' else c
  let c5 := c4.map fun c =>
    if c = Char.ofNat 0x2018 ∨ c = Char.ofNat 0x2019 then Char.ofNat 39 else c
  let c6 := runReplace (matchPunctSpace isTermC) c5
  let c7 := runReplace (matchPunctRun (· = '.') ['.', '.', '.']) c6
  let c8 := runReplace (matchPunctRun (· = '!') ['!']) c7
  runReplace (matchPunctRun (· = '?') ['?']) c8

/-- Embeds `cleanPassageText(text, difficulty)` from `textProcessor.js`.  For
beginner/intermediate the cleaned text is rejected (empty result) when it
fails the allow-list re-check, is shorter than 20 characters, or contains no
alphabetic character. -/
def cleanPassageText (d : Difficulty) (text : List Char) : List Char :=
  if text = [] then []
  else if d = .beginner ∨ d = .intermediate then
    let c := cleanCoreBI text
    if c.all isAllowClass = false then []
    else if c.length < 20 ∨ c.any isAsciiLetter = false then []
    else c
  else cleanCoreExpert text

/-- Embeds `isPassageSuitableForDifficulty(text, difficulty)` from
`textProcessor.js`. -/
def isPassageSuitable (d : Difficulty) (text : List Char) : Bool :=
  if d = .beginner ∨ d = .intermediate then
    if allowPlusTest text = false then false
    else if d = .beginner then
      let sentenceCount := (text.filter (· = '.')).length
      let avgSentenceLength : ℚ := (text.length : ℚ) / (max sentenceCount 1 : ℚ)
      if 120 < avgSentenceLength then false
      else
        let numberRatio : ℚ := ((text.filter isDigitC).length : ℚ) / (text.length : ℚ)
        if 1/20 < numberRatio then false
        else
          let capitalRatio : ℚ := ((text.filter isUpperAZ).length : ℚ) / (text.length : ℚ)
          if 2/25 < capitalRatio then false else true
    else true
  else true

/-- Embeds `createFingerprint(text)`: the lowercased first 50 characters with
whitespace collapsed and trimmed. -/
def createFingerprint (text : List Char) : List Char :=
  jsTrim (collapseWS ((text.take 50).map Char.toLower))

/-! Section: `textProcessor.js` — candidate generation and `processBook` -/

/-- Embeds `currentText.match(/[^.!?]*[.!?]+/g) || []`: the sentence-terminated
chunks of a string, in order; a trailing unterminated fragment is dropped. -/
def sentenceChunksAux : Nat → List Char → List (List Char)
  | 0, _ => []
  | _ + 1, [] => []
  | fuel + 1, l =>
    let a := l.takeWhile fun c => !isTermC c
    let rest1 := l.drop a.length
    let b := rest1.takeWhile isTermC
    if b = [] then []
    else (a ++ b) :: sentenceChunksAux fuel (rest1.drop b.length)

/-- Sentence-terminated chunks of a string. -/
def sentenceChunks (l : List Char) : List (List Char) :=
  sentenceChunksAux l.length l

/-- The inner sentence-accumulation loop of `generateCandidatePassages`:
every running concatenation of sentence chunks whose raw length lies in
`[minL, maxL]` is cleaned and kept when the cleaned text is non-empty and at
least `minL` long; the loop stops once the accumulated text exceeds
`maxL`. -/
def buildCandidates (d : Difficulty) (minL maxL : Nat) :
    List Char → List (List Char) → List (List Char)
  | _, [] => []
  | builtText, sent :: rest =>
    let newText := builtText ++ sent
    let pushed :=
      if minL ≤ newText.length ∧ newText.length ≤ maxL then
        let cl := cleanPassageText d (jsTrim newText)
        if cl ≠ [] ∧ minL ≤ cl.length then [cl] else []
      else []
    if maxL < newText.length then pushed
    else pushed ++ buildCandidates d minL maxL newText rest

/-- The paragraph-accumulation loop of `generateCandidatePassages`, running
over the paragraph list from the starting index while the accumulated text
is shorter than `1.5 × maxL`. -/
def genLoop (d : Difficulty) (minL maxL : Nat) :
    List (List Char) → List Char → List (List Char)
  | [], _ => []
  | p :: rest, currentText =>
    if 2 * currentText.length < 3 * maxL then
      let pt := jsTrim p
      let ct := if currentText.length = 0 then pt else currentText ++ ' ' :: pt
      let cands :=
        if minL ≤ ct.length then
          buildCandidates d minL maxL [] (sentenceChunks ct) ++
          (if ct.length ≤ maxL then
            let cl := cleanPassageText d ct
            if cl ≠ [] ∧ minL ≤ cl.length then [cl] else []
          else [])
        else []
      cands ++ genLoop d minL maxL rest ct
    else []

/-- Embeds `generateCandidatePassages(paragraphs, startIndex, …)`, given the
suffix of the paragraph list starting at `startIndex`. -/
def generateCandidatePassages (d : Difficulty) (minL maxL : Nat)
    (paragraphSuffix : List (List Char)) : List (List Char) :=
  genLoop d minL maxL paragraphSuffix []

/-- A stored passage:
`{id, text, grade, ease, fingerprint, length, wordCount}`. -/
structure Passage where
  id : String
  text : List Char
  grade : ℚ
  ease : ℚ
  fingerprint : List Char
  length : Nat
  wordCount : Nat
  deriving DecidableEq, Repr

/-- Book configuration: identifier, tier, target grade, and the passage
length range `passageLength = [minLength, maxLength]`. -/
structure BookConfig where
  id : String
  difficulty : Difficulty
  targetGrade : ℚ
  minLength : Nat
  maxLength : Nat
  deriving DecidableEq, Repr

/-- The passage object pushed by `processBook` for an accepted candidate
(`idx` is the number of passages already accepted). -/
def mkPassage (cfg : BookConfig) (idx : Nat) (text : List Char)
    (a : AnalyzeResult) (fp : List Char) : Passage :=
  { id := cfg.id ++ "_" ++ toString idx
    text := text
    grade := a.grade
    ease := a.ease
    fingerprint := fp
    length := text.length
    wordCount := (splitRuns isJsWS text).length }

/-- The inner candidate loop of `processBook`: length bounds, character-set
validation, fingerprint deduplication, grade check and suitability check;
accepted passages are appended and their fingerprint recorded; processing
stops at the 500-passage cap. -/
def processCandidates (cfg : BookConfig) :
    List (List Char) → List Passage × List (List Char) → List Passage × List (List Char)
  | [], st => st
  | c :: rest, (ps, fps) =>
    if 500 ≤ ps.length then (ps, fps)
    else if c.length < cfg.minLength ∨ cfg.maxLength < c.length then
      processCandidates cfg rest (ps, fps)
    else if isCharacterSetValid cfg.difficulty c = false then
      processCandidates cfg rest (ps, fps)
    else
      let fp := createFingerprint c
      if fp ∈ fps then processCandidates cfg rest (ps, fps)
      else
        let a := analyze c
        if qabs (a.grade - cfg.targetGrade) ≤ 3/2 ∧
            isPassageSuitable cfg.difficulty c = true then
          processCandidates cfg rest (ps ++ [mkPassage cfg ps.length c a fp], fps ++ [fp])
        else processCandidates cfg rest (ps, fps)

/-- The outer paragraph loop of `processBook`, iterating over every
paragraph starting index (suffix), with the 500-passage cap. -/
def processSuffixes (cfg : BookConfig) :
    List (List Char) → List Passage × List (List Char) → List Passage × List (List Char)
  | [], st => st
  | par :: rest, (ps, fps) =>
    if 500 ≤ ps.length then (ps, fps)
    else
      let cands := generateCandidatePassages cfg.difficulty cfg.minLength
        cfg.maxLength (par :: rest)
      processSuffixes cfg rest (processCandidates cfg cands (ps, fps))

/-- One step of the search for the blank-line separator `/\n\s*\n/` after an
initial newline: walk the following whitespace run, remembering the length
of the greedy match ending at the last newline seen. -/
def blankSepGo : List Char → Nat → Option Nat → Option Nat
  | [], _, best => best
  | c :: rest, k, best =>
    if c = '\n' then blankSepGo rest (k + 1) (some (k + 1))
    else if isJsWS c then blankSepGo rest (k + 1) best
    else best

/-- Embeds `rawText.split(/\n\s*\n/)`: split on blank-line separator matches. -/
def splitBlankAux : Nat → List Char → List Char → List (List Char)
  | 0, l, acc => [acc.reverse ++ l]
  | _ + 1, [], acc => [acc.reverse]
  | fuel + 1, c :: rest, acc =>
    match (if c = '\n' then blankSepGo rest 1 none else none) with
    | some k => acc.reverse :: splitBlankAux fuel ((c :: rest).drop k) []
    | none => splitBlankAux fuel rest (c :: acc)

/-- Split raw text on `/\n\s*\n/` separators. -/
def splitBlankLines (l : List Char) : List (List Char) :=
  splitBlankAux (l.length + 1) l []

/-- Embeds `processBook` up to (but not including) the final validation filter:
returns the accepted passages together with the batch's used-fingerprint
set. -/
def processBookAux (raw : List Char) (cfg : BookConfig) :
    List Passage × List (List Char) :=
  let paragraphs := (splitBlankLines raw).filter fun p => jsTrim p ≠ []
  processSuffixes cfg paragraphs ([], [])

/-- Embeds `processBook(rawText, bookCfg)`: the list of passages handed to
`storePassages` (the accepted passages after the final character-set
validation filter). -/
def processBook (raw : List Char) (cfg : BookConfig) : List Passage :=
  (processBookAux raw cfg).1.filter fun p => isCharacterSetValid cfg.difficulty p.text

/-! Section: `passageGenerator.js` — random non-repeating passage selection

`Math.random()` is modelled by an oracle `rands : Nat → ℚ` giving the value
consumed at loop index `i` of the Fisher-Yates shuffle, and the
`crypto.getRandomValues` draw of `getRandomFromArray` by an arbitrary
`u : Nat` reduced modulo the array length, exactly as in the source. -/

/-- JavaScript simultaneous destructuring swap
`[a[i], a[j]] = [a[j], a[i]]` (identity when an index is out of range,
which cannot happen for in-range randomness). -/
def jsSwap (l : List α) (i j : Nat) : List α :=
  if h : i < l.length ∧ j < l.length then
    (l.set i (l.get ⟨j, h.2⟩)).set j (l.get ⟨i, h.1⟩)
  else l

/-- The Fisher-Yates loop of `shuffleArray`: iteration index runs downward
from `l.length - 1` to `1`, swapping position `i` with position
`Math.floor(Math.random() * (i + 1))`. -/
def fyLoop (rands : Nat → ℚ) : List α → Nat → List α
  | l, 0 => l
  | l, i + 1 =>
    fyLoop rands (jsSwap l (i + 1) (Int.toNat (Rat.floor (rands (i + 1) * ((i : ℚ) + 2))))) i

/-- Embeds `shuffleArray(array)` from `passageGenerator.js` (on a copy). -/
def shuffleArray (rands : Nat → ℚ) (l : List α) : List α :=
  fyLoop rands l (l.length - 1)

/-- Embeds `getRandomFromArray(array)`: empty gives `null`, a singleton gives its
element, otherwise a uniformly drawn 32-bit value reduced modulo the
length. -/
def getRandomFromArray (u : Nat) (l : List α) : Option α :=
  if l.length = 0 then none
  else if l.length = 1 then l.get? 0
  else l.get? (u % l.length)

/-- Embeds `getRandom(difficulty)` from `passageGenerator.js`, given the current
repository set `passages` and the module-level used-id set for the
difficulty.  Returns the drawn passage (if any) and the updated used set. -/
def getRandom (rands : Nat → ℚ) (u : Nat) (passages : List Passage)
    (used : Finset String) : Option Passage × Finset String :=
  if passages.length = 0 then (none, used)
  else
    let unusedPassages := passages.filter fun p => decide (p.id ∉ used)
    if unusedPassages.length = 0 then
      let candidates := shuffleArray rands passages
      match getRandomFromArray u candidates with
      | some p => (some p, insert p.id ∅)
      | none => (none, ∅)
    else
      let candidates := shuffleArray rands unusedPassages
      match getRandomFromArray u candidates with
      | some p => (some p, insert p.id used)
      | none => (none, used)

/-! Section: The typing session engine (`TypingEngine`)

The engine instance fields are the `EngineState`; the ambient
`setInterval`/`clearInterval` timer table is the `World` (live interval ids
plus the next fresh id).  `Date.now()` is an explicit `now` argument in
milliseconds.  Dispatched events are returned explicitly; the 200ms interval
callback itself (which emits `update` events while active) is external and
not part of any claim, so only the events dispatched synchronously by
`processInput` appear. -/

/-- Final metrics object of `calculateFinalMetrics` (one-decimal
rounding). -/
structure FinalMetrics where
  grossWPM : ℚ
  netWPM : ℚ
  accuracy : ℚ
  errors : Nat
  timeElapsed : Int
  totalCharacters : Nat
  targetLength : Nat
  deriving DecidableEq, Repr

/-- Live metrics object of `calculateMetrics` (whole-number rounding). -/
structure LiveMetrics where
  grossWPM : Int
  netWPM : Int
  accuracy : Int
  errors : Nat
  timeElapsed : Int
  progress : Int
  deriving DecidableEq, Repr

/-- The `TypingEngine` instance fields.  `errorsField` and `lastUpdateTime`
are assigned by `reset` in the source but never read. -/
structure EngineState where
  targetText : List Char
  userInput : List Char
  startTime : Option Nat
  endTime : Option Nat
  isActive : Bool
  updateInterval : Option Nat
  lastUpdateTime : Nat
  errorsField : List Nat
  deriving DecidableEq, Repr

/-- The ambient timer table: ids of currently scheduled intervals, and the
next id `setInterval` will allocate. -/
structure World where
  live : List Nat
  nextId : Nat
  deriving DecidableEq, Repr

/-- Events dispatched by the engine. -/
inductive EngineEvent where
  | start
  | update (m : LiveMetrics)
  | complete (m : FinalMetrics)
  deriving DecidableEq, Repr

/-- Embeds `reset()`: clear all instance fields.  Note the source merely assigns
`this.updateInterval = null` — it does not call `clearInterval`, so the
timer table is untouched. -/
def reset (_ : EngineState) : EngineState :=
  { targetText := []
    userInput := []
    startTime := none
    endTime := none
    isActive := false
    updateInterval := none
    lastUpdateTime := 0
    errorsField := [] }

/-- The freshly constructed engine (the constructor calls `reset`). -/
def engineInit : EngineState :=
  { targetText := []
    userInput := []
    startTime := none
    endTime := none
    isActive := false
    updateInterval := none
    lastUpdateTime := 0
    errorsField := [] }

instance : Inhabited EngineState := ⟨engineInit⟩

/-- The initial timer table. -/
def worldInit : World := { live := [], nextId := 0 }

/-- Embeds `reset()` together with its (absent) effect on the timer table: the
source performs no `clearInterval`, so the world passes through
unchanged. -/
def resetOp (s : EngineState) (w : World) : EngineState × World := (reset s, w)

/-- Embeds `setTargetText(text)`: reset, then install the target. -/
def setTargetText (s : EngineState) (text : List Char) : EngineState :=
  { reset s with targetText := text }

/-- Embeds `startUpdateLoop()`: `setInterval` allocates a fresh interval id, which
becomes `this.updateInterval`. -/
def startUpdateLoop (s : EngineState) (w : World) : EngineState × World :=
  ({ s with updateInterval := some w.nextId },
   { live := w.live ++ [w.nextId], nextId := w.nextId + 1 })

/-- Embeds `stopUpdateLoop()`: `clearInterval` on the held id, when present. -/
def stopUpdateLoop (s : EngineState) (w : World) : EngineState × World :=
  match s.updateInterval with
  | some t => ({ s with updateInterval := none }, { w with live := w.live.erase t })
  | none => (s, w)

/-- Embeds `countErrors()`: mismatches between `userInput` and `targetText` at
positions below `min(len(userInput), len(targetText))`. -/
def countErrors (s : EngineState) : Nat :=
  ((s.userInput.zip s.targetText).filter fun p => p.1 ≠ p.2).length

/-- Embeds `calculateFinalMetrics()`: exact-rational rendering; `null` timestamps
coerce to `0` as in JavaScript arithmetic. -/
def calculateFinalMetrics (s : EngineState) : FinalMetrics :=
  let e : ℚ := (s.endTime.getD 0 : ℚ)
  let st : ℚ := (s.startTime.getD 0 : ℚ)
  let timeElapsed : ℚ := (e - st) / 1000 / 60
  let charactersTyped : ℚ := (s.userInput.length : ℚ)
  let errorsCount : Nat := countErrors s
  let grossWPM : ℚ := if 0 < timeElapsed then (charactersTyped / 5) / timeElapsed else 0
  let netWPM : ℚ :=
    if 0 < timeElapsed then
      (qmax 0 ((charactersTyped - (errorsCount : ℚ)) / 5)) / timeElapsed
    else 0
  let accuracy : ℚ :=
    if 0 < charactersTyped then
      ((charactersTyped - (errorsCount : ℚ)) / charactersTyped) * 100
    else 0
  { grossWPM := round1 grossWPM
    netWPM := round1 netWPM
    accuracy := round1 accuracy
    errors := errorsCount
    timeElapsed := jsRound ((e - st) / 1000)
    totalCharacters := s.userInput.length
    targetLength := s.targetText.length }

/-- Embeds `calculateMetrics()`: live metrics, whole-number rounding; the
zero-metrics object when the timer has not started.  `now` is the sampled
`Date.now()`. -/
def calculateMetrics (now : Nat) (s : EngineState) : LiveMetrics :=
  match s.startTime with
  | none => { grossWPM := 0, netWPM := 0, accuracy := 0, errors := 0,
              timeElapsed := 0, progress := 0 }
  | some st =>
    let timeElapsed : ℚ := ((now : ℚ) - (st : ℚ)) / 1000 / 60
    let charactersTyped : ℚ := (s.userInput.length : ℚ)
    let errorsCount : Nat := countErrors s
    let grossWPM : ℚ := if 0 < timeElapsed then (charactersTyped / 5) / timeElapsed else 0
    let netWPM : ℚ :=
      if 0 < timeElapsed then
        (qmax 0 ((charactersTyped - (errorsCount : ℚ)) / 5)) / timeElapsed
      else 0
    let accuracy : ℚ :=
      if 0 < charactersTyped then
        ((charactersTyped - (errorsCount : ℚ)) / charactersTyped) * 100
      else 0
    let progress : ℚ := (charactersTyped / (s.targetText.length : ℚ)) * 100
    { grossWPM := jsRound grossWPM
      netWPM := jsRound netWPM
      accuracy := jsRound accuracy
      errors := errorsCount
      timeElapsed := jsRound (((now : ℚ) - (st : ℚ)) / 1000)
      progress := jsRound progress }

/-- Embeds `complete()`: guard on `isActive`; record `endTime`, clear the interval,
compute and dispatch final metrics. -/
def complete (now : Nat) (s : EngineState) (w : World) :
    EngineState × World × List EngineEvent :=
  if s.isActive = false then (s, w, [])
  else
    let s1 := { s with endTime := some now, isActive := false }
    let r := stopUpdateLoop s1 w
    (r.1, r.2, [EngineEvent.complete (calculateFinalMetrics r.1)])

/-- Embeds `processInput(input)`: store the buffer; on the first keystroke
(`!this.startTime`, i.e. a `null` or `0` start time, with a non-empty
buffer) record the start, begin the update loop and dispatch `start`; when
the buffer length equals the target length, `complete()`; otherwise compute
(and discard) live metrics. -/
def processInput (now : Nat) (input : List Char) (s : EngineState) (w : World) :
    EngineState × World × List EngineEvent :=
  let s0 := { s with userInput := input }
  let started :=
    if s0.startTime.getD 0 = 0 ∧ 0 < input.length then
      let r := startUpdateLoop { s0 with startTime := some now, isActive := true } w
      (r.1, r.2, [EngineEvent.start])
    else (s0, w, ([] : List EngineEvent))
  if input.length = started.1.targetText.length then
    let r := complete now started.1 started.2.1
    (r.1, r.2.1, started.2.2 ++ r.2.2)
  else
    (started.1, started.2.1, started.2.2)

/-- The session phase of the specification's state machine, read off the
engine fields: `Completed` once `endTime` is recorded, `Active` while the
timer runs, `Idle` otherwise. -/
inductive Phase where
  | Idle
  | Active
  | Completed
  deriving DecidableEq, Repr

/-- Phase of an engine state. -/
def phaseOf (s : EngineState) : Phase :=
  if s.endTime ≠ none then .Completed
  else if s.isActive then .Active
  else .Idle

/-- Recognise a `complete` event. -/
def isCompleteEv : EngineEvent → Bool
  | .complete _ => true
  | _ => false

/-- Invariant satisfied by every engine state reachable from the
constructor through `reset`/`setTargetText`/`processInput` (with positive
clock values): a cleared start time means no activity and no timer handle; a
recorded start time is a positive timestamp; a session without an end time
is either fresh or active. -/
def EngineInv (s : EngineState) : Prop :=
  (s.startTime = none → s.isActive = false ∧ s.updateInterval = none) ∧
  s.startTime.getD 1 ≠ 0 ∧
  (s.endTime = none → s.startTime = none ∨ s.isActive = true)

/-- Invariant of the timer table: live ids are distinct and below the next
fresh id. -/
def WorldInv (w : World) : Prop :=
  w.live.Nodup ∧ ∀ id ∈ w.live, id < w.nextId

/-! Section: Generic helper lemmas -/

/-- Evaluate `Rat.floor` from a bracketing. -/
theorem ratFloor_eq (r : ℚ) (n : ℤ) (h1 : (n : ℚ) ≤ r) (h2 : r < (n : ℚ) + 1) :
    Rat.floor r = n := by
  have ha : n ≤ Rat.floor r := Rat.le_floor.mpr h1
  have hb : ¬ (n + 1 ≤ Rat.floor r) := by
    intro h
    have := Rat.le_floor.mp h
    push_cast at this
    linarith
  omega

/-- Evaluate `round1` from a bracketing of the scaled argument. -/
theorem round1_eq (q : ℚ) (n : ℤ) (h1 : (n : ℚ) ≤ q * 10 + 1/2)
    (h2 : q * 10 + 1/2 < (n : ℚ) + 1) : round1 q = (n : ℚ) / 10 := by
  unfold round1 jsRound
  rw [ratFloor_eq (q * 10 + 1/2) n h1 h2]

/-- Zipping against a truncation that still covers the second list changes
nothing. -/
theorem zip_take_left (l1 : List α) :
    ∀ (l2 : List β) (n : Nat), l2.length ≤ n → (l1.take n).zip l2 = l1.zip l2 := by
  induction l1 with
  | nil => intro l2 n _; simp
  | cons a t1 ih =>
    intro l2 n h
    cases l2 with
    | nil => simp
    | cons b t2 =>
      cases n with
      | zero => simp at h
      | succ m =>
        simp only [List.take_succ_cons, List.zip_cons_cons]
        rw [ih t2 m (by simpa using h)]

/-- A state's phase is `Completed` exactly when an end time is recorded. -/
theorem phaseOf_eq_completed (s : EngineState) :
    phaseOf s = Phase.Completed ↔ s.endTime ≠ none := by
  unfold phaseOf
  split_ifs with h1 h2 <;> simp_all

/-! Section: C9 — analyzer: empty input and determinism -/

/-- C9: `analyze` returns `{grade: 0, ease: 0}` for every empty or
whitespace-only input, and `analyze` is deterministic: two evaluations on
the same text yield identical results. -/
theorem C9_analyze_empty_deterministic :
    (∀ t : List Char, jsTrim t = [] → analyze t = ⟨0, 0⟩) ∧
    (∀ t₁ t₂ : List Char, t₁ = t₂ → analyze t₁ = analyze t₂) := by
  constructor
  · intro t ht
    unfold analyze
    rw [ht]
    simp
  · intro t₁ t₂ h
    rw [h]

/-- Witness for C9 at concrete inputs: the empty string and a
whitespace-only string. -/
theorem C9_analyze_empty_deterministic_witness :
    analyze "".toList = ⟨0, 0⟩ ∧ analyze "  \t ".toList = ⟨0, 0⟩ :=
  ⟨C9_analyze_empty_deterministic.1 _ (by decide),
   C9_analyze_empty_deterministic.1 _ (by decide)⟩

/-! Section: C4 — stored beginner/intermediate passages match the allow-list -/

/-- C4: every passage stored by `processBook` for beginner or intermediate
difficulty has text matching `^[a-zA-Z0-9\s.,]+$` exactly. -/
theorem C4_stored_text_allowlist (cfg : BookConfig) (raw : List Char)
    (hd : cfg.difficulty = .beginner ∨ cfg.difficulty = .intermediate) :
    ∀ p ∈ processBook raw cfg, allowPlusTest p.text = true := by
  intro p hp
  unfold processBook at hp
  have hv := List.of_mem_filter hp
  unfold isCharacterSetValid at hv
  rwa [if_pos hd] at hv

/-- Concrete book configuration used by the C4 witness. -/
def c4cfg : BookConfig :=
  { id := "b1", difficulty := .beginner, targetGrade := 0,
    minLength := 20, maxLength := 200 }

/-- Concrete raw text used by the C4 witness. -/
def c4raw : List Char := "The cat sat on the mat. The dog ran to the park.".toList

/-- Witness for C4 at a concrete beginner book. -/
theorem C4_stored_text_allowlist_witness :
    (c4cfg.difficulty = .beginner ∨ c4cfg.difficulty = .intermediate) ∧
    ∀ p ∈ processBook c4raw c4cfg, allowPlusTest p.text = true :=
  ⟨Or.inl rfl, C4_stored_text_allowlist c4cfg c4raw (Or.inl rfl)⟩

/-! Section: C5 — sanitizer output guarantees (corrected) -/

/-- C5 counterexample: the claim says the non-empty cleaned output always
ends with a trailing period, but an input ending in a letter is returned
without any period being appended — the final
`replace(/\s*[.,]\s*$/, '.')` only fires when trailing punctuation already
exists. -/
theorem C5_trailing_period_counterexample :
    cleanPassageText .beginner "hello world this is a test sentence okay".toList ≠ [] ∧
    (cleanPassageText .beginner
      "hello world this is a test sentence okay".toList).getLast? ≠ some '.' := by
  decide

/-- C5 (amended): for beginner and intermediate tiers the sanitizer's
non-empty cleaned output has length at least 20, contains at least one
alphabetic character and matches the allow-list regex; any input whose
cleaned result is shorter than 20 characters, has no alphabetic character,
or fails the allow-list re-check yields the empty string.  (The trailing
period clause of the original claim does not hold.) -/
theorem C5_sanitizer_checks (d : Difficulty) (text : List Char)
    (hd : d = .beginner ∨ d = .intermediate) :
    (cleanPassageText d text = [] ∨
      (20 ≤ (cleanPassageText d text).length ∧
       (cleanPassageText d text).any isAsciiLetter = true ∧
       allowPlusTest (cleanPassageText d text) = true)) ∧
    (((cleanCoreBI text).length < 20 ∨
      (cleanCoreBI text).any isAsciiLetter = false ∨
      (cleanCoreBI text).all isAllowClass = false) →
      cleanPassageText d text = []) := by
  by_cases h0 : text = []
  · simp [cleanPassageText, h0]
  · unfold cleanPassageText
    rw [if_neg h0, if_pos hd]
    by_cases hall : (cleanCoreBI text).all isAllowClass = false
    · rw [if_pos hall]
      simp [hall]
    · rw [if_neg hall]
      by_cases hrej : (cleanCoreBI text).length < 20 ∨
          (cleanCoreBI text).any isAsciiLetter = false
      · rw [if_pos hrej]
        simp
      · rw [if_neg hrej]
        push_neg at hrej
        obtain ⟨hlen, halpha⟩ := hrej
        constructor
        · right
          refine ⟨hlen, by simpa using halpha, ?_⟩
          unfold allowPlusTest
          have hne : (cleanCoreBI text).isEmpty = false := by
            cases hc : cleanCoreBI text with
            | nil => rw [hc] at hlen; simp at hlen
            | cons a l => simp
          rw [hne]
          simp only [Bool.not_false, Bool.true_and]
          simpa using hall
        · intro hcon
          rcases hcon with h | h | h
          · omega
          · exact absurd h (by simpa using halpha)
          · exact absurd h hall

/-- Witness for C5 at a concrete beginner input whose cleaned output is
non-empty. -/
theorem C5_sanitizer_checks_witness :
    (cleanPassageText .beginner "hello world, this is a test sentence okay.".toList = [] ∨
      (20 ≤ (cleanPassageText .beginner "hello world, this is a test sentence okay.".toList).length ∧
       (cleanPassageText .beginner "hello world, this is a test sentence okay.".toList).any isAsciiLetter = true ∧
       allowPlusTest (cleanPassageText .beginner "hello world, this is a test sentence okay.".toList) = true)) ∧
    (((cleanCoreBI "hello world, this is a test sentence okay.".toList).length < 20 ∨
      (cleanCoreBI "hello world, this is a test sentence okay.".toList).any isAsciiLetter = false ∨
      (cleanCoreBI "hello world, this is a test sentence okay.".toList).all isAllowClass = false) →
      cleanPassageText .beginner "hello world, this is a test sentence okay.".toList = []) :=
  C5_sanitizer_checks .beginner "hello world, this is a test sentence okay.".toList (Or.inl rfl)

/-! Section: C2 — processInput misuse (corrected) -/

/-- C2 counterexample: on a freshly constructed engine (before any
`setTargetText`), `processInput("a")` is not a no-op — it emits an event,
activates the session and schedules a timer. -/
theorem C2_noop_counterexample :
    (processInput 1000 "a".toList engineInit worldInit).2.2 ≠ [] ∧
    (processInput 1000 "a".toList engineInit worldInit).1.isActive = true ∧
    (processInput 1000 "a".toList engineInit worldInit).2.1.live ≠ [] := by
  decide

/-- C2 (amended): after `Completed`, `processInput` merely stores the new
buffer — timestamps and phase are unchanged, no timer is started and no
events are emitted.  Before `setTargetText`, `processInput("")` leaves the
engine and timer table unchanged and emits nothing, but a non-empty buffer
starts a session: the start timestamp is recorded, the phase becomes
`Active`, a timer is scheduled and a `start` event is emitted. -/
theorem C2_misuse_behavior (s : EngineState) (w : World) (input : List Char) (now : Nat) :
    (s.isActive = false ∧ s.endTime ≠ none ∧ s.startTime.getD 0 ≠ 0 →
      processInput now input s w = ({ s with userInput := input }, w, [])) ∧
    (processInput now [] engineInit worldInit = (engineInit, worldInit, [])) ∧
    (input ≠ [] →
      (processInput now input engineInit worldInit).1.isActive = true ∧
      (processInput now input engineInit worldInit).1.startTime = some now ∧
      (processInput now input engineInit worldInit).1.endTime = none ∧
      (processInput now input engineInit worldInit).2.2 = [EngineEvent.start] ∧
      (processInput now input engineInit worldInit).2.1.live = [worldInit.nextId]) := by
  refine ⟨?_, ?_, ?_⟩
  · rintro ⟨hA, _hE, hS⟩
    unfold processInput complete
    dsimp only
    have hstart : ¬ (s.startTime.getD 0 = 0 ∧ 0 < input.length) := fun h => hS h.1
    rw [if_neg hstart]
    dsimp only
    by_cases hl : input.length = s.targetText.length
    · rw [if_pos hl, if_pos hA]
      rfl
    · rw [if_neg hl]
  · unfold processInput complete
    dsimp only
    rw [if_neg (show ¬ ((engineInit.startTime.getD 0 = 0) ∧ 0 < ([] : List Char).length) by simp)]
    dsimp only
    rw [if_pos (show ([] : List Char).length = engineInit.targetText.length from rfl)]
    rw [if_pos (show engineInit.isActive = false from rfl)]
    rfl
  · intro hne
    have hpos : 0 < input.length := List.length_pos.mpr hne
    unfold processInput
    dsimp only
    rw [if_pos (show engineInit.startTime.getD 0 = 0 ∧ 0 < input.length from ⟨rfl, hpos⟩)]
    dsimp only [startUpdateLoop]
    rw [if_neg (show ¬ (input.length = engineInit.targetText.length) by
      simpa [engineInit] using Nat.pos_iff_ne_zero.mp hpos)]
    exact ⟨rfl, rfl, rfl, rfl, rfl⟩

/-- Completed session state used by the C2 witness. -/
def c2completed : EngineState :=
  { targetText := "cat".toList
    userInput := "cot".toList
    startTime := some 60000
    endTime := some 60000
    isActive := false
    updateInterval := none
    lastUpdateTime := 0
    errorsField := [] }

/-- Witness for C2 at a concrete completed session and a concrete
fresh-engine keystroke. -/
theorem C2_misuse_behavior_witness :
    (processInput 70000 "xy".toList c2completed worldInit =
      ({ c2completed with userInput := "xy".toList }, worldInit, [])) ∧
    ((processInput 70000 "x".toList engineInit worldInit).1.isActive = true ∧
     (processInput 70000 "x".toList engineInit worldInit).1.startTime = some 70000 ∧
     (processInput 70000 "x".toList engineInit worldInit).1.endTime = none ∧
     (processInput 70000 "x".toList engineInit worldInit).2.2 = [EngineEvent.start] ∧
     (processInput 70000 "x".toList engineInit worldInit).2.1.live = [worldInit.nextId]) :=
  ⟨(C2_misuse_behavior c2completed worldInit "xy".toList 70000).1
      ⟨rfl, by decide, by decide⟩,
   (C2_misuse_behavior engineInit worldInit "x".toList 70000).2.2 (by decide)⟩

/-! Section: C3 — reset and the orphaned periodic timer (code bug) -/

/-- C3: the claim (and the specification) requires `reset()` to cancel the
pending periodic timer so no orphaned callback remains.  The source instead
assigns `this.updateInterval = null` without calling `clearInterval`: after
starting a session (interval id 0 scheduled) and calling `reset()`, the
engine is back in `Idle` with cleared buffers and timestamps and a dropped
handle, yet interval 0 is still scheduled — an orphaned callback. -/
theorem C3_reset_orphans_timer :
    (processInput 5 "c".toList (setTargetText engineInit "cat".toList) worldInit).2.1.live = [0] ∧
    (processInput 5 "c".toList (setTargetText engineInit "cat".toList) worldInit).1.updateInterval = some 0 ∧
    (resetOp (processInput 5 "c".toList (setTargetText engineInit "cat".toList) worldInit).1
      (processInput 5 "c".toList (setTargetText engineInit "cat".toList) worldInit).2.1).1.updateInterval = none ∧
    (resetOp (processInput 5 "c".toList (setTargetText engineInit "cat".toList) worldInit).1
      (processInput 5 "c".toList (setTargetText engineInit "cat".toList) worldInit).2.1).2.live = [0] ∧
    phaseOf (resetOp (processInput 5 "c".toList (setTargetText engineInit "cat".toList) worldInit).1
      (processInput 5 "c".toList (setTargetText engineInit "cat".toList) worldInit).2.1).1 = .Idle ∧
    (resetOp (processInput 5 "c".toList (setTargetText engineInit "cat".toList) worldInit).1
      (processInput 5 "c".toList (setTargetText engineInit "cat".toList) worldInit).2.1).1.userInput = [] ∧
    (resetOp (processInput 5 "c".toList (setTargetText engineInit "cat".toList) worldInit).1
      (processInput 5 "c".toList (setTargetText engineInit "cat".toList) worldInit).2.1).1.startTime = none ∧
    (resetOp (processInput 5 "c".toList (setTargetText engineInit "cat".toList) worldInit).1
      (processInput 5 "c".toList (setTargetText engineInit "cat".toList) worldInit).2.1).1.endTime = none := by
  decide

/-! Section: Engine step lemmas -/

/-- Embeds `processInput` always stores the buffer. -/
theorem processInput_userInput (now : Nat) (input : List Char) (s : EngineState) (w : World) :
    (processInput now input s w).1.userInput = input := by
  unfold processInput complete stopUpdateLoop startUpdateLoop
  rcases hu : s.updateInterval with _ | tid <;>
    dsimp only <;> split_ifs <;> simp [hu]

/-- Embeds `processInput` never changes the target text. -/
theorem processInput_targetText (now : Nat) (input : List Char) (s : EngineState) (w : World) :
    (processInput now input s w).1.targetText = s.targetText := by
  unfold processInput complete stopUpdateLoop startUpdateLoop
  rcases hu : s.updateInterval with _ | tid <;>
    dsimp only <;> split_ifs <;> simp [hu]

/-- When the buffer length differs from the target length, `processInput`
leaves the end timestamp untouched. -/
theorem processInput_endTime_of_ne (now : Nat) (input : List Char) (s : EngineState)
    (w : World) (h : input.length ≠ s.targetText.length) :
    (processInput now input s w).1.endTime = s.endTime := by
  unfold processInput
  dsimp only
  by_cases hstart : s.startTime.getD 0 = 0 ∧ 0 < input.length
  · rw [if_pos hstart]
    dsimp only [startUpdateLoop]
    rw [if_neg h]
  · rw [if_neg hstart]
    dsimp only
    rw [if_neg h]

/-- Embeds `countErrors` is bounded by the compared prefix length. -/
theorem countErrors_le (s : EngineState) :
    countErrors s ≤ min s.userInput.length s.targetText.length := by
  unfold countErrors
  calc ((s.userInput.zip s.targetText).filter fun p => p.1 ≠ p.2).length
      ≤ (s.userInput.zip s.targetText).length := List.length_filter_le _ _
    _ = min s.userInput.length s.targetText.length := List.length_zip _ _

/-- Positions beyond the target length never contribute to `countErrors`:
truncating the buffer at any length covering the target leaves the count
unchanged. -/
theorem countErrors_take (s : EngineState) (n : Nat) (h : s.targetText.length ≤ n) :
    countErrors { s with userInput := s.userInput.take n } = countErrors s := by
  unfold countErrors
  dsimp only
  rw [zip_take_left _ _ _ h]

/-! Section: C10 — surplus buffers never complete and never add errors -/

/-- C10: for every buffer strictly longer than the target, `processInput`
never transitions the session to `Completed`, the error count never exceeds
`min(len(buffer), len(target))`, and positions beyond the target length are
never compared (truncating the surplus leaves the error count unchanged). -/
theorem C10_surplus_buffer (s : EngineState) (w : World) (input : List Char) (now : Nat)
    (h : s.targetText.length < input.length) :
    (phaseOf (processInput now input s w).1 = .Completed ↔ phaseOf s = .Completed) ∧
    countErrors (processInput now input s w).1 ≤ min input.length s.targetText.length ∧
    countErrors (processInput now input s w).1 =
      countErrors { (processInput now input s w).1 with
                      userInput := input.take s.targetText.length } := by
  have hne : input.length ≠ s.targetText.length := by omega
  refine ⟨?_, ?_, ?_⟩
  · rw [phaseOf_eq_completed, phaseOf_eq_completed,
      processInput_endTime_of_ne now input s w hne]
  · have hle := countErrors_le (processInput now input s w).1
    rwa [processInput_userInput, processInput_targetText] at hle
  · have htk := countErrors_take (processInput now input s w).1 s.targetText.length
      (by rw [processInput_targetText])
    rw [processInput_userInput] at htk
    exact htk.symm

/-- Witness for C10: target `"cat"`, buffer `"cots"`. -/
theorem C10_surplus_buffer_witness :
    ((setTargetText engineInit "cat".toList).targetText.length < "cots".toList.length) ∧
    ((phaseOf (processInput 7 "cots".toList (setTargetText engineInit "cat".toList) worldInit).1 = .Completed ↔
        phaseOf (setTargetText engineInit "cat".toList) = .Completed) ∧
     countErrors (processInput 7 "cots".toList (setTargetText engineInit "cat".toList) worldInit).1 ≤
        min "cots".toList.length (setTargetText engineInit "cat".toList).targetText.length ∧
     countErrors (processInput 7 "cots".toList (setTargetText engineInit "cat".toList) worldInit).1 =
       countErrors { (processInput 7 "cots".toList (setTargetText engineInit "cat".toList) worldInit).1 with
                       userInput := "cots".toList.take (setTargetText engineInit "cat".toList).targetText.length }) :=
  ⟨by decide,
   C10_surplus_buffer (setTargetText engineInit "cat".toList) worldInit "cots".toList 7 (by decide)⟩

/-! Section: C1 — completion records, cancels, and emits final metrics once -/

/-- The concrete C1 example run: target `"cat"`, single full-buffer input
`"cot"` at time 60000 on a fresh session. -/
def c1run : EngineState × World × List EngineEvent :=
  processInput 60000 "cot".toList (setTargetText engineInit "cat".toList) worldInit

/-- C1: on a session with a non-empty target that is not yet completed (its
reachable states: fresh, or active), a buffer of exactly the target length
makes `processInput` record the end timestamp, transition to `Completed`,
cancel the periodic emission (the engine's interval — and any interval it
just created — is no longer live and the handle is cleared), and emit final
metrics exactly once, computed by `calculateFinalMetrics` from the recorded
timestamps; concretely, target `"cat"` with input `"cot"` yields
`errors = 1` and final `accuracy = 66.7`. -/
theorem C1_completion (s : EngineState) (w : World) (input : List Char) (now : Nat)
    (hInv : EngineInv s) (hW : WorldInv w) (hT : s.targetText ≠ [])
    (hlen : input.length = s.targetText.length) (hE : s.endTime = none) :
    ((processInput now input s w).1.endTime = some now ∧
     phaseOf (processInput now input s w).1 = .Completed ∧
     (processInput now input s w).1.updateInterval = none ∧
     (∀ id ∈ (processInput now input s w).2.1.live,
        id ∈ w.live ∧ s.updateInterval ≠ some id) ∧
     (processInput now input s w).2.2.filter isCompleteEv =
       [EngineEvent.complete (calculateFinalMetrics (processInput now input s w).1)]) ∧
    (c1run.2.2 = [EngineEvent.start, EngineEvent.complete (calculateFinalMetrics c1run.1)] ∧
     (calculateFinalMetrics c1run.1).errors = 1 ∧
     (calculateFinalMetrics c1run.1).accuracy = 667/10) := by
  obtain ⟨h1, h2, h3⟩ := hInv
  obtain ⟨hnd, hlt⟩ := hW
  have hpos : 0 < input.length := hlen ▸ List.length_pos.mpr hT
  constructor
  · unfold processInput
    dsimp only
    rcases hst : s.startTime with _ | t
    · obtain ⟨hA, hU⟩ := h1 hst
      rw [if_pos (show (none : Option Nat).getD 0 = 0 ∧ 0 < input.length from ⟨rfl, hpos⟩)]
      dsimp only [startUpdateLoop]
      rw [if_pos hlen]
      unfold complete
      dsimp only
      rw [if_neg (by simp)]
      unfold stopUpdateLoop
      dsimp only
      have hnot : w.nextId ∉ w.live := fun hmem => lt_irrefl _ (hlt _ hmem)
      refine ⟨rfl, by simp [phaseOf], rfl, ?_, rfl⟩
      intro id hid
      rw [List.erase_append_right _ hnot, List.erase_cons_head, List.append_nil] at hid
      exact ⟨hid, by rw [hU]; simp⟩
    · have hA : s.isActive = true := by
        rcases h3 hE with hnone | hact
        · rw [hst] at hnone; cases hnone
        · exact hact
      have ht0 : t ≠ 0 := by rw [hst] at h2; simpa using h2
      rw [if_neg (show ¬ ((some t).getD 0 = 0 ∧ 0 < input.length) by simp [ht0])]
      dsimp only
      rw [if_pos hlen]
      unfold complete
      dsimp only
      rw [if_neg (by simp [hA])]
      unfold stopUpdateLoop
      dsimp only
      rcases hu : s.updateInterval with _ | tid
      · dsimp only
        refine ⟨rfl, by simp [phaseOf], rfl, ?_, rfl⟩
        intro id hid
        exact ⟨hid, by simp⟩
      · dsimp only
        refine ⟨rfl, by simp [phaseOf], rfl, ?_, rfl⟩
        intro id hid
        have hmem := (List.Nodup.mem_erase_iff hnd).mp hid
        exact ⟨hmem.2, by simpa using Ne.symm hmem.1⟩
  · refine ⟨rfl, rfl, ?_⟩
    have hacc : (calculateFinalMetrics c1run.1).accuracy
        = round1 ((((3:Nat):ℚ) - ((1:Nat):ℚ)) / ((3:Nat):ℚ) * 100) := rfl
    rw [hacc, round1_eq _ 667 (by norm_num) (by norm_num)]
    norm_num

/-- Concrete active session state used by the C1 witness. -/
def c1state : EngineState :=
  { targetText := "cat".toList
    userInput := "c".toList
    startTime := some 5
    endTime := none
    isActive := true
    updateInterval := some 0
    lastUpdateTime := 0
    errorsField := [] }

/-- Concrete timer table used by the C1 witness (interval 0 live). -/
def c1world : World := { live := [0], nextId := 1 }

/-- Witness for C1 at a concrete active session. -/
theorem C1_completion_witness :
    (processInput 900 "cot".toList c1state c1world).1.endTime = some 900 ∧
    phaseOf (processInput 900 "cot".toList c1state c1world).1 = .Completed ∧
    (processInput 900 "cot".toList c1state c1world).1.updateInterval = none ∧
    (∀ id ∈ (processInput 900 "cot".toList c1state c1world).2.1.live,
       id ∈ c1world.live ∧ c1state.updateInterval ≠ some id) ∧
    (processInput 900 "cot".toList c1state c1world).2.2.filter isCompleteEv =
      [EngineEvent.complete (calculateFinalMetrics (processInput 900 "cot".toList c1state c1world).1)] :=
  (C1_completion c1state c1world "cot".toList 900
    (by refine ⟨?_, ?_, ?_⟩ <;> decide)
    (by constructor <;> decide)
    (by decide) (by decide) (by decide)).1

/-! Section: Shuffle and draw lemmas (`passageGenerator.js`) -/

/-- A swap yields no new elements. -/
theorem jsSwap_mem (l : List α) (i j : Nat) : ∀ a ∈ jsSwap l i j, a ∈ l := by
  unfold jsSwap
  split_ifs with h
  · intro a ha
    rcases List.mem_or_eq_of_mem_set ha with ha2 | rfl
    · rcases List.mem_or_eq_of_mem_set ha2 with ha3 | rfl
      · exact ha3
      · exact List.get_mem _ _ _
    · exact List.get_mem _ _ _
  · intro a ha
    exact ha

/-- A swap preserves length. -/
theorem jsSwap_length (l : List α) (i j : Nat) : (jsSwap l i j).length = l.length := by
  unfold jsSwap
  split_ifs with h <;> simp

/-- The Fisher-Yates loop yields no new elements. -/
theorem fyLoop_mem (rands : Nat → ℚ) :
    ∀ (k : Nat) (l : List α), ∀ a ∈ fyLoop rands l k, a ∈ l := by
  intro k
  induction k with
  | zero => intro l a ha; exact ha
  | succ i ih =>
    intro l a ha
    exact jsSwap_mem _ _ _ _ (ih _ _ ha)

/-- The Fisher-Yates loop preserves length. -/
theorem fyLoop_length (rands : Nat → ℚ) :
    ∀ (k : Nat) (l : List α), (fyLoop rands l k).length = l.length := by
  intro k
  induction k with
  | zero => intro l; rfl
  | succ i ih =>
    intro l
    rw [fyLoop, ih, jsSwap_length]

/-- Embeds `shuffleArray` yields no new elements. -/
theorem shuffleArray_mem (rands : Nat → ℚ) (l : List α) :
    ∀ a ∈ shuffleArray rands l, a ∈ l :=
  fyLoop_mem rands _ l

/-- Embeds `shuffleArray` preserves length. -/
theorem shuffleArray_length (rands : Nat → ℚ) (l : List α) :
    (shuffleArray rands l).length = l.length :=
  fyLoop_length rands _ l

/-- A successful draw comes from the array. -/
theorem getRandomFromArray_mem (u : Nat) (l : List α) (p : α)
    (hp : getRandomFromArray u l = some p) : p ∈ l := by
  unfold getRandomFromArray at hp
  split_ifs at hp with h1 h2
  · exact List.get?_mem hp
  · exact List.get?_mem hp

/-- A draw from a non-empty array succeeds. -/
theorem getRandomFromArray_isSome (u : Nat) (l : List α) (h : l ≠ []) :
    ∃ p, getRandomFromArray u l = some p := by
  have hlen : 0 < l.length := List.length_pos.mpr h
  unfold getRandomFromArray
  rw [if_neg (by omega)]
  split_ifs with h1
  · exact ⟨l.get ⟨0, hlen⟩, List.get?_eq_get hlen⟩
  · have hm : u % l.length < l.length := Nat.mod_lt _ hlen
    exact ⟨l.get ⟨u % l.length, hm⟩, List.get?_eq_get hm⟩

/-! Section: C6 — getRandom never repeats before full coverage -/

/-- C6: for repository sets of size greater than 1, `getRandom` always
returns a passage from the current set; while some passage is still
unserved, the returned passage's id has not been served and is added to the
used set; only once every id has been served is the used set cleared (and
the full set reshuffled) before the draw, after which the used set holds
exactly the newly drawn id. -/
theorem C6_getRandom_no_repeat (rands : Nat → ℚ) (u : Nat) (passages : List Passage)
    (used : Finset String) (hsize : 1 < passages.length) :
    (∃ p, (getRandom rands u passages used).1 = some p) ∧
    ∀ p, (getRandom rands u passages used).1 = some p →
      p ∈ passages ∧
      ((∃ q ∈ passages, q.id ∉ used) →
        p.id ∉ used ∧ (getRandom rands u passages used).2 = insert p.id used) ∧
      ((∀ q ∈ passages, q.id ∈ used) →
        (getRandom rands u passages used).2 = insert p.id (∅ : Finset String)) := by
  have hplen : ¬ (passages.length = 0) := by omega
  unfold getRandom
  rw [if_neg hplen]
  dsimp only
  by_cases hun : (passages.filter fun p => decide (p.id ∉ used)).length = 0
  · rw [if_pos hun]
    have hsh : shuffleArray rands passages ≠ [] := by
      intro hnil
      have hl := shuffleArray_length rands passages
      rw [hnil] at hl
      simp only [List.length_nil] at hl
      omega
    obtain ⟨p0, hp0⟩ := getRandomFromArray_isSome u _ hsh
    rw [hp0]
    dsimp only
    refine ⟨⟨p0, rfl⟩, ?_⟩
    intro p hp
    have hpp0 : p0 = p := by simpa using hp
    subst hpp0
    refine ⟨shuffleArray_mem rands passages p0 (getRandomFromArray_mem u _ p0 hp0), ?_, ?_⟩
    · rintro ⟨q, hq, hqid⟩
      exfalso
      have hmem : q ∈ passages.filter fun p => decide (p.id ∉ used) :=
        List.mem_filter.mpr ⟨hq, by simpa using hqid⟩
      have := List.length_pos.mpr (List.ne_nil_of_mem hmem)
      omega
    · intro _
      rfl
  · rw [if_neg hun]
    have huf : passages.filter (fun p => decide (p.id ∉ used)) ≠ [] := by
      intro hnil
      rw [hnil] at hun
      exact hun rfl
    have hsh : shuffleArray rands (passages.filter fun p => decide (p.id ∉ used)) ≠ [] := by
      intro hnil
      have hl := shuffleArray_length rands (passages.filter fun p => decide (p.id ∉ used))
      rw [hnil] at hl
      simp only [List.length_nil] at hl
      exact huf (List.length_eq_zero.mp hl.symm)
    obtain ⟨p0, hp0⟩ := getRandomFromArray_isSome u _ hsh
    rw [hp0]
    dsimp only
    refine ⟨⟨p0, rfl⟩, ?_⟩
    intro p hp
    have hpp0 : p0 = p := by simpa using hp
    subst hpp0
    have hmem : p0 ∈ passages.filter fun p => decide (p.id ∉ used) :=
      shuffleArray_mem rands _ p0 (getRandomFromArray_mem u _ p0 hp0)
    have hmem2 := List.mem_filter.mp hmem
    have hid : p0.id ∉ used := by simpa using hmem2.2
    refine ⟨hmem2.1, fun _ => ⟨hid, rfl⟩, ?_⟩
    intro hall
    exact absurd (hall p0 hmem2.1) hid

/-- Concrete passages used by the C6 witness. -/
def c6passages : List Passage :=
  [{ id := "a", text := "aa".toList, grade := 0, ease := 0, fingerprint := [],
     length := 2, wordCount := 1 },
   { id := "b", text := "bb".toList, grade := 0, ease := 0, fingerprint := [],
     length := 2, wordCount := 1 }]

/-- Witness for C6 at a concrete two-passage set with an empty used set. -/
theorem C6_getRandom_no_repeat_witness :
    (∃ p, (getRandom (fun _ => 0) 0 c6passages ∅).1 = some p) ∧
    ∀ p, (getRandom (fun _ => 0) 0 c6passages ∅).1 = some p →
      p ∈ c6passages ∧
      ((∃ q ∈ c6passages, q.id ∉ (∅ : Finset String)) →
        p.id ∉ (∅ : Finset String) ∧
        (getRandom (fun _ => 0) 0 c6passages ∅).2 = insert p.id ∅) ∧
      ((∀ q ∈ c6passages, q.id ∈ (∅ : Finset String)) →
        (getRandom (fun _ => 0) 0 c6passages ∅).2 = insert p.id (∅ : Finset String)) :=
  C6_getRandom_no_repeat (fun _ => 0) 0 c6passages ∅ (by decide)

/-! Section: Provenance of stored passages (`processBook` loops) -/

/-- Every passage produced by the candidate loop is either carried over or
a `mkPassage` of some candidate that passed the length-bounds guard and the
character-set validation. -/
theorem processCandidates_mem (cfg : BookConfig) :
    ∀ (cands : List (List Char)) (ps : List Passage) (fps : List (List Char)),
      ∀ p ∈ (processCandidates cfg cands (ps, fps)).1,
        p ∈ ps ∨ ∃ c idx,
          ¬ (c.length < cfg.minLength ∨ cfg.maxLength < c.length) ∧
          p = mkPassage cfg idx c (analyze c) (createFingerprint c) := by
  intro cands
  induction cands with
  | nil =>
    intro ps fps p hp
    exact Or.inl hp
  | cons c rest ih =>
    intro ps fps p hp
    rw [processCandidates] at hp
    dsimp only at hp
    split_ifs at hp with h1 h2 h3 h4 h5
    · exact Or.inl hp
    · exact ih ps fps p hp
    · exact ih ps fps p hp
    · exact ih ps fps p hp
    · rcases ih _ _ p hp with hin | hex
      · rcases List.mem_append.mp hin with hold | hnew
        · exact Or.inl hold
        · right
          refine ⟨c, ps.length, h2, ?_⟩
          simpa using hnew
      · exact Or.inr hex
    · exact ih ps fps p hp

/-- Provenance through the outer paragraph loop. -/
theorem processSuffixes_mem (cfg : BookConfig) :
    ∀ (sufs : List (List Char)) (ps : List Passage) (fps : List (List Char)),
      ∀ p ∈ (processSuffixes cfg sufs (ps, fps)).1,
        p ∈ ps ∨ ∃ c idx,
          ¬ (c.length < cfg.minLength ∨ cfg.maxLength < c.length) ∧
          p = mkPassage cfg idx c (analyze c) (createFingerprint c) := by
  intro sufs
  induction sufs with
  | nil =>
    intro ps fps p hp
    exact Or.inl hp
  | cons par rest ih =>
    intro ps fps p hp
    rw [processSuffixes] at hp
    dsimp only at hp
    split_ifs at hp with h1
    · exact Or.inl hp
    · rcases hst : processCandidates cfg
        (generateCandidatePassages cfg.difficulty cfg.minLength cfg.maxLength (par :: rest))
        (ps, fps) with ⟨ps2, fps2⟩
      rw [hst] at hp
      rcases ih ps2 fps2 p hp with hin | hex
      · have := processCandidates_mem cfg _ ps fps p (by rw [hst]; exact hin)
        exact this
      · exact Or.inr hex

/-! Section: C8 — stored passages respect the configured length range -/

/-- C8: every passage stored by `processBook` satisfies
`minLength ≤ length ≤ maxLength` for the configured passage length range,
and its `length` field equals the character length of its `text`. -/
theorem C8_stored_length_bounds (cfg : BookConfig) (raw : List Char) :
    ∀ p ∈ processBook raw cfg,
      cfg.minLength ≤ p.length ∧ p.length ≤ cfg.maxLength ∧ p.length = p.text.length := by
  intro p hp
  have hp2 : p ∈ (processBookAux raw cfg).1 := List.mem_of_mem_filter hp
  have hmem := processSuffixes_mem cfg _ [] [] p hp2
  rcases hmem with hin | ⟨c, idx, hbound, rfl⟩
  · cases hin
  · push_neg at hbound
    exact ⟨hbound.1, hbound.2, rfl⟩

/-! Section: C7 — per-batch fingerprint deduplication -/

/-- The deduplication invariant of the `processBook` state: every accepted
passage's fingerprint is the fingerprint of its text, is recorded in the
used-fingerprint set, and no two accepted passages share a fingerprint. -/
def FpInv (ps : List Passage) (fps : List (List Char)) : Prop :=
  (∀ p ∈ ps, p.fingerprint ∈ fps ∧ p.fingerprint = createFingerprint p.text) ∧
  ps.Pairwise fun a b => a.fingerprint ≠ b.fingerprint

/-- The candidate loop preserves the deduplication invariant (the
used-fingerprint set only grows). -/
theorem processCandidates_fpinv (cfg : BookConfig) :
    ∀ (cands : List (List Char)) (ps : List Passage) (fps : List (List Char)),
      FpInv ps fps →
      FpInv (processCandidates cfg cands (ps, fps)).1 (processCandidates cfg cands (ps, fps)).2 := by
  intro cands
  induction cands with
  | nil =>
    intro ps fps h
    exact h
  | cons c rest ih =>
    intro ps fps h
    rw [processCandidates]
    dsimp only
    split_ifs with h1 h2 h3 h4 h5
    · exact h
    · exact ih ps fps h
    · exact ih ps fps h
    · exact ih ps fps h
    · refine ih _ _ ⟨?_, ?_⟩
      · intro p hp
        rcases List.mem_append.mp hp with hold | hnew
        · have hh := h.1 p hold
          exact ⟨List.mem_append_left _ hh.1, hh.2⟩
        · have hp2 : p = mkPassage cfg ps.length c (analyze c) (createFingerprint c) := by
            simpa using hnew
          subst hp2
          exact ⟨List.mem_append_right _ (List.mem_singleton.mpr rfl), rfl⟩
      · refine List.pairwise_append.mpr ⟨h.2, List.pairwise_singleton _ _, ?_⟩
        intro a ha b hb
        have hb2 : b = mkPassage cfg ps.length c (analyze c) (createFingerprint c) := by
          simpa using hb
        subst hb2
        have hfa := h.1 a ha
        intro hcon
        rw [show (mkPassage cfg ps.length c (analyze c) (createFingerprint c)).fingerprint
            = createFingerprint c from rfl] at hcon
        exact h4 (hcon ▸ hfa.1)
    · exact ih ps fps h

/-- The outer paragraph loop preserves the deduplication invariant. -/
theorem processSuffixes_fpinv (cfg : BookConfig) :
    ∀ (sufs : List (List Char)) (ps : List Passage) (fps : List (List Char)),
      FpInv ps fps →
      FpInv (processSuffixes cfg sufs (ps, fps)).1 (processSuffixes cfg sufs (ps, fps)).2 := by
  intro sufs
  induction sufs with
  | nil =>
    intro ps fps h
    exact h
  | cons par rest ih =>
    intro ps fps h
    rw [processSuffixes]
    dsimp only
    split_ifs with h1
    · exact h
    · rcases hst : processCandidates cfg
        (generateCandidatePassages cfg.difficulty cfg.minLength cfg.maxLength (par :: rest))
        (ps, fps) with ⟨ps2, fps2⟩
      have hc := processCandidates_fpinv cfg
        (generateCandidatePassages cfg.difficulty cfg.minLength cfg.maxLength (par :: rest))
        ps fps h
      rw [hst] at hc
      exact ih ps2 fps2 hc

/-- C7: within one `processBook` batch, every stored passage's fingerprint
is `createFingerprint` of its cleaned text and is recorded in the batch's
seen set, and no two passages stored in the batch share a fingerprint. -/
theorem C7_fingerprint_dedup (cfg : BookConfig) (raw : List Char) :
    (processBook raw cfg).Pairwise (fun a b => a.fingerprint ≠ b.fingerprint) ∧
    ∀ p ∈ processBook raw cfg,
      p.fingerprint = createFingerprint p.text ∧
      p.fingerprint ∈ (processBookAux raw cfg).2 := by
  have hinv := processSuffixes_fpinv cfg
    ((splitBlankLines raw).filter fun p => jsTrim p ≠ []) [] []
    ⟨fun p hp => absurd hp (List.not_mem_nil p), List.Pairwise.nil⟩
  constructor
  · exact List.Pairwise.sublist (List.filter_sublist _) hinv.2
  · intro p hp
    have hh := hinv.1 p (List.mem_of_mem_filter hp)
    exact ⟨hh.2, hh.1⟩

/-- Concrete book configuration used by the C7 witness. -/
def c7cfg : BookConfig :=
  { id := "b7", difficulty := .beginner, targetGrade := 0,
    minLength := 20, maxLength := 200 }

/-- Concrete raw text used by the C7 witness. -/
def c7raw : List Char := "The cat sat on the mat. The dog ran to the park.".toList

/-- Witness for C7 at a concrete beginner book. -/
theorem C7_fingerprint_dedup_witness :
    (processBook c7raw c7cfg).Pairwise (fun a b => a.fingerprint ≠ b.fingerprint) ∧
    ∀ p ∈ processBook c7raw c7cfg,
      p.fingerprint = createFingerprint p.text ∧
      p.fingerprint ∈ (processBookAux c7raw c7cfg).2 :=
  C7_fingerprint_dedup c7cfg c7raw

/-- Concrete book configuration used by the C8 witness. -/
def c8cfg : BookConfig :=
  { id := "b8", difficulty := .beginner, targetGrade := 0,
    minLength := 20, maxLength := 200 }

/-- Concrete raw text used by the C8 witness. -/
def c8raw : List Char := "The cat sat on the mat. The dog ran to the park.".toList

/-- Witness for C8 at a concrete beginner book. -/
theorem C8_stored_length_bounds_witness :
    (c8cfg.minLength = 20 ∧ c8cfg.maxLength = 200) ∧
    ∀ p ∈ processBook c8raw c8cfg,
      c8cfg.minLength ≤ p.length ∧ p.length ≤ c8cfg.maxLength ∧ p.length = p.text.length :=
  ⟨⟨rfl, rfl⟩, C8_stored_length_bounds c8cfg c8raw⟩

end TypingSpeedClassic
